import Mathlib

/-!
Verification development for the repo-summary pipeline
(src/repo_summary: utils.py, github.py, gitlab.py, formatters.py).

The Python source is shallowly embedded: pure functions become Lean
functions; Python `int` becomes `ℤ` (or `ℕ` where the value is an index);
Python `float` arithmetic in this code base only divides by powers of two
and multiplies/divides by exact decimals, so it is modelled exactly by `ℚ`;
`None`-able values become `Option`; code that can raise an uncaught
exception returns `Except`.  Dictionaries produced by the external CLI
tools become structures whose fields are `Option`s (`none` = key absent or
JSON null, matching the `.get` fall-backs of the source).
-/

namespace RepoSummary

/-- Python `round(x, 1)` rounds half to even (banker's rounding); this is
the underlying integer rounding of a rational. -/
def roundHalfEven (q : ℚ) : ℤ :=
  if q - (⌊q⌋ : ℚ) < 1 / 2 then ⌊q⌋
  else if 1 / 2 < q - (⌊q⌋ : ℚ) then ⌊q⌋ + 1
  else if ⌊q⌋ % 2 = 0 then ⌊q⌋ else ⌊q⌋ + 1

/-- Python `round(x, 1)`: round to one decimal place, half to even. -/
def pyRound1 (q : ℚ) : ℚ :=
  ((roundHalfEven (q * 10) : ℤ) : ℚ) / 10

/-- utils.format_size: the `units` list. -/
def sizeUnits : List String := ["B", "KB", "MB", "GB", "TB"]

/-- utils.format_size: the `while size >= 1024 and unit_index < len(units) - 1`
loop.  The guard `unit_index < 4` bounds the number of iterations, so fuel
`4 - unit_index` makes the while loop structurally recursive; when the fuel
is zero the guard is false anyway, so the encoding is exact. -/
def sizeLoopAux : ℕ → ℚ → ℕ → ℚ × ℕ
  | 0, size, i => (size, i)
  | fuel + 1, size, i =>
    if 1024 ≤ size ∧ i < 4 then sizeLoopAux fuel (size / 1024) (i + 1)
    else (size, i)

/-- utils.format_size: the division loop started at `unit_index = i`. -/
def sizeLoop (size : ℚ) (i : ℕ) : ℚ × ℕ := sizeLoopAux (4 - i) size i

/-- Python `f"{x:.1f}"` for the non-negative dyadic rationals produced by
the size loop: one decimal digit, rounding half to even (CPython formats
binary floats by correct rounding of their exact value). -/
def render1 (q : ℚ) : String :=
  let n := roundHalfEven (q * 10)
  toString (n / 10) ++ "." ++ toString (n % 10)

/-- utils.format_size: human-readable size.  `None` and `0` short-circuit
to `"0 B"`; otherwise the value is divided by 1024 until it is below 1024
or the last unit is reached, and rendered with one decimal. -/
def format_size (size_bytes : Option ℤ) : String :=
  match size_bytes with
  | none => "0 B"
  | some n =>
    if n = 0 then "0 B"
    else
      let p := sizeLoop ((n : ℤ) : ℚ) 0
      render1 p.1 ++ " " ++ sizeUnits.getD p.2 "B"

/-- Python `c in s` for a single character (structurally recursive stand-in
for `String.contains`, which does not reduce). -/
def hasChar (s : String) (c : Char) : Bool :=
  s.data.contains c

/-- Python `s.strip()`: strip leading and trailing whitespace. -/
def pyStrip (s : String) : String :=
  String.mk (((s.data.dropWhile Char.isWhitespace).reverse.dropWhile
    Char.isWhitespace).reverse)

/-- Python `s.replace(c, r)` for a one-character pattern (the source only
replaces `"Z"`). -/
def replaceAllChar (s : String) (c : Char) (r : String) : String :=
  String.mk (s.data.flatMap fun ch => if ch = c then r.data else [ch])

/-- Python `s.split(sep)` for a one-character separator, accumulator
form. -/
def splitCharAux (sep : Char) : List Char → List Char → List String
  | [], acc => [String.mk acc.reverse]
  | c :: cs, acc =>
    if c = sep then String.mk acc.reverse :: splitCharAux sep cs []
    else splitCharAux sep cs (c :: acc)

/-- Python `s.split(sep)` for a one-character separator. -/
def splitChar (sep : Char) (s : String) : List String :=
  splitCharAux sep s.data []

/-- Outcome of the `subprocess.run` call inside utils.run_command:
the process ran to completion with an exit code and output streams, the
executable was absent (`FileNotFoundError`), or the execution failed in
some other way (e.g. `PermissionError` for a non-executable file) — an
exception type the source's `try` does not catch. -/
inductive RunOutcome where
  | completed (exitCode : ℤ) (stdout stderr : String)
  | fileNotFound
  | osError
deriving DecidableEq

/-- utils.run_command.  `check=True` turns a non-zero exit into a
`CalledProcessError`, which is caught (diagnostic printed, `None`
returned); `FileNotFoundError` is caught likewise; any other execution
error is not caught and propagates (`Except.error`).  On success the
captured stdout is stripped, or `None` is returned when capture is off. -/
def run_command (outcome : RunOutcome) (capture_output : Bool) :
    Except Unit (Option String) :=
  match outcome with
  | .completed code out _ =>
    if code ≠ 0 then Except.ok none
    else Except.ok (if capture_output then some (pyStrip out) else none)
  | .fileNotFound => Except.ok none
  | .osError => Except.error ()

/-- Calendar date-time produced by the two parse paths of
utils.format_date (timezone offset and sub-second fraction are validated
but not stored: the fixed output format `%Y-%m-%d` never shows them). -/
structure DateTime where
  year : ℕ
  month : ℕ
  day : ℕ
  hour : ℕ
  minute : ℕ
  second : ℕ
deriving DecidableEq

def isLeap (y : ℕ) : Bool :=
  (y % 4 == 0 && y % 100 != 0) || y % 400 == 0

def daysInMonth (y m : ℕ) : ℕ :=
  if m = 2 then (if isLeap y then 29 else 28)
  else if m = 4 ∨ m = 6 ∨ m = 9 ∨ m = 11 then 30
  else 31

def allDigits (s : String) : Bool :=
  !s.data.isEmpty && s.data.all Char.isDigit

def natOf (s : String) : ℕ :=
  s.toList.foldl (fun acc c => acc * 10 + (c.toNat - 48)) 0

/-- CPython `datetime.strptime(s, "%Y-%m-%d")`: `%Y` matches exactly four
digits, `%m` and `%d` match one or two digits with their value ranges, the
whole string must be consumed, and the `datetime` constructor then
validates the day against the calendar (and `MINYEAR = 1`). -/
def parseYMD (s : String) : Option DateTime :=
  match splitChar '-' s with
  | [ys, ms, ds] =>
    if ys.length = 4 && allDigits ys
        && (ms.length = 1 || ms.length = 2) && allDigits ms
        && (ds.length = 1 || ds.length = 2) && allDigits ds then
      let y := natOf ys
      let m := natOf ms
      let d := natOf ds
      if 1 ≤ y ∧ 1 ≤ m ∧ m ≤ 12 ∧ 1 ≤ d ∧ d ≤ daysInMonth y m then
        some ⟨y, m, d, 0, 0, 0⟩
      else none
    else none
  | _ => none

/-- Two zero-padded digits. -/
def parse2 (s : String) : Option ℕ :=
  if s.length = 2 && allDigits s then some (natOf s) else none

/-- Fraction of a second in `datetime.fromisoformat`: exactly 3 or 6
digits. -/
def validFrac (s : String) : Bool :=
  (s.length = 3 || s.length = 6) && allDigits s

/-- Seconds field, optionally with a fractional part. -/
def parseSec (s : String) : Option ℕ :=
  match splitChar '.' s with
  | [ss] => do
    let v ← parse2 ss
    if v < 60 then some v else none
  | [ss, fs] => do
    let v ← parse2 ss
    if v < 60 && validFrac fs then some v else none
  | _ => none

/-- Time-of-day grammar of `datetime.fromisoformat`:
`HH[:MM[:SS[.fff[fff]]]]`. -/
def parseHMS (t : String) : Option (ℕ × ℕ × ℕ) :=
  match splitChar ':' t with
  | [hs] => do
    let h ← parse2 hs
    if h < 24 then some (h, 0, 0) else none
  | [hs, ms] => do
    let h ← parse2 hs
    let m ← parse2 ms
    if h < 24 && m < 60 then some (h, m, 0) else none
  | [hs, ms, ss] => do
    let h ← parse2 hs
    let m ← parse2 ms
    let sec ← parseSec ss
    if h < 24 && m < 60 then some (h, m, sec) else none
  | _ => none

/-- Split the time string of `fromisoformat` at the first `+` or `-`,
which starts the UTC-offset part when present. -/
def splitAtTZ : List Char → List Char → List Char × Option (List Char)
  | [], acc => (acc.reverse, none)
  | c :: rest, acc =>
    if c = '+' ∨ c = '-' then (acc.reverse, some rest)
    else splitAtTZ rest (c :: acc)

/-- UTC offset grammar of `fromisoformat`: `HH:MM[:SS[.ffffff]]`. -/
def validOffset (cs : List Char) : Bool :=
  match splitChar ':' (String.mk cs) with
  | [hs, ms] =>
    (parse2 hs).elim false (fun h => decide (h < 24))
      && (parse2 ms).elim false (fun m => decide (m < 60))
  | [hs, ms, ss] =>
    (parse2 hs).elim false (fun h => decide (h < 24))
      && (parse2 ms).elim false (fun m => decide (m < 60))
      && (parseSec ss).isSome
  | _ => false

/-- Date part of `datetime.fromisoformat`: strictly `YYYY-MM-DD`
(zero-padded), validated against the calendar. -/
def parseISOdate (s : String) : Option (ℕ × ℕ × ℕ) :=
  match splitChar '-' s with
  | [ys, ms, ds] =>
    if ys.length = 4 && allDigits ys && ms.length = 2 && allDigits ms
        && ds.length = 2 && allDigits ds then
      let y := natOf ys
      let m := natOf ms
      let d := natOf ds
      if 1 ≤ y ∧ 1 ≤ m ∧ m ≤ 12 ∧ 1 ≤ d ∧ d ≤ daysInMonth y m then
        some (y, m, d)
      else none
    else none
  | _ => none

/-- CPython `datetime.fromisoformat`: ten-character date part, then an
optional time part after a one-character separator, with an optional UTC
offset. -/
def parseISO (s : String) : Option DateTime :=
  let cs := s.data
  if cs.length < 10 then none
  else
    match parseISOdate (String.mk (cs.take 10)) with
    | none => none
    | some (y, m, d) =>
      match cs.drop 10 with
      | [] => some ⟨y, m, d, 0, 0, 0⟩
      | _sep :: timeCs =>
        let p := splitAtTZ timeCs []
        match parseHMS (String.mk p.1) with
        | none => none
        | some (h, mi, sec) =>
          match p.2 with
          | none => some ⟨y, m, d, h, mi, sec⟩
          | some off => if validOffset off then some ⟨y, m, d, h, mi, sec⟩ else none

/-- `datetime.strftime` for the default output format `"%Y-%m-%d"` of
utils.format_date (the only format its callers use): zero-padded
year, month and day. -/
def pad2 (n : ℕ) : String :=
  if n < 10 then "0" ++ toString n else toString n

def pad4 (n : ℕ) : String :=
  if n < 10 then "000" ++ toString n
  else if n < 100 then "00" ++ toString n
  else if n < 1000 then "0" ++ toString n
  else toString n

def strftimeYMD (dt : DateTime) : String :=
  pad4 dt.year ++ "-" ++ pad2 dt.month ++ "-" ++ pad2 dt.day

/-- utils.format_date with its default output format.  Falsy input (absent
or empty) yields `""`; a string containing `'T'` goes through
`fromisoformat` after `Z` is replaced by `+00:00`; otherwise the
`strptime("%Y-%m-%d")` path is used; a parse failure returns the input
unchanged. -/
def format_date (date_str : Option String) : String :=
  match date_str with
  | none => ""
  | some s =>
    if s.data.isEmpty then ""
    else
      match (if hasChar s 'T' then parseISO (replaceAllChar s 'Z' "+00:00")
             else parseYMD s) with
      | some dt => strftimeYMD dt
      | none => s

/-- gitlab.get_repo_languages, as a function of the parsed JSON reply of
the `glab api projects/<path>/languages` call (`none` covers a failed
command or unparsable output, and the dictionary iterates in insertion
order, modelled by the list order).  An empty reply is falsy and yields
`None`; a zero byte total yields `None`; otherwise each byte count is
converted to a percentage of the total, rounded to one decimal. -/
def get_repo_languages (fetched : Option (List (String × ℤ))) :
    Option (List (String × ℚ)) :=
  match fetched with
  | none => none
  | some data =>
    if data.isEmpty then none
    else
      let total := (data.map Prod.snd).sum
      if total = 0 then none
      else some (data.map fun p => (p.1, pyRound1 ((p.2 : ℚ) / (total : ℚ) * 100)))

/-- A node of the `languages.nodes` list in the gh JSON reply:
`lang['name']` is indexed directly, `lang.get('size', 0)` defaults. -/
structure LangNode where
  name : String
  size : Option ℤ
deriving DecidableEq

/-- The `languages` sub-object of the gh JSON reply; `nodes = none` models
a dictionary without a `'nodes'` key (the empty dictionary behaves the
same, being caught by the truthiness test together with the key test). -/
structure LangsObj where
  nodes : Option (List LangNode)
deriving DecidableEq

/-- github.extract_repo_info, language block: percentage of the byte
total per language, rounded to one decimal; an absent node list or a zero
total leaves `languages` as the empty dictionary. -/
def gh_languages (languages_data : Option LangsObj) : List (String × ℚ) :=
  match languages_data with
  | none => []
  | some lo =>
    match lo.nodes with
    | none => []
    | some nodes =>
      let total_size : ℤ := (nodes.map fun l => l.size.getD 0).sum
      if 0 < total_size then
        nodes.map fun l =>
          (l.name, pyRound1 ((l.size.getD 0 : ℚ) / (total_size : ℚ) * 100))
      else []

/-- Python `max(languages.items(), key=lambda x: x[1])`: first entry wins
ties, later entries win only by a strictly greater value. -/
def pyMaxSnd (x : String × ℚ) (xs : List (String × ℚ)) : String × ℚ :=
  xs.foldl (fun acc y => if acc.2 < y.2 then y else acc) x

/-- get_primary_language (identical in github.py and gitlab.py): name of
the highest-percentage language, `""` for a falsy mapping. -/
def get_primary_language (languages : Option (List (String × ℚ))) : String :=
  match languages with
  | none => ""
  | some [] => ""
  | some (x :: xs) => (pyMaxSnd x xs).1

/-- A nested gh sub-object carrying a `name` field (`primaryLanguage`,
`licenseInfo`, `defaultBranchRef`); the outer `Option` is the
null/absent case, the inner one a dictionary without the key. -/
structure NameObj where
  name : Option String := none
deriving DecidableEq

structure OwnerObj where
  login : Option String := none
deriving DecidableEq

structure IssuesObj where
  totalCount : Option ℤ := none
deriving DecidableEq

/-- A node of `repositoryTopics.nodes`: `topic['topic']['name']` is
indexed directly. -/
structure TopicNode where
  topicName : String
deriving DecidableEq

structure TopicsObj where
  nodes : Option (List TopicNode) := none
deriving DecidableEq

/-- One raw record of the gh `repo list --json` reply, with exactly the
fields github.extract_repo_info reads; `none` is an absent key or JSON
null, matching the `.get` fall-backs. -/
structure GHRaw where
  name : Option String := none
  description : Option String := none
  owner : Option OwnerObj := none
  url : Option String := none
  sshUrl : Option String := none
  createdAt : Option String := none
  updatedAt : Option String := none
  pushedAt : Option String := none
  stargazerCount : Option ℤ := none
  forkCount : Option ℤ := none
  issues : Option IssuesObj := none
  primaryLanguage : Option NameObj := none
  languages : Option LangsObj := none
  isPrivate : Option Bool := none
  isArchived : Option Bool := none
  isFork : Option Bool := none
  isTemplate : Option Bool := none
  defaultBranchRef : Option NameObj := none
  diskUsage : Option ℤ := none
  licenseInfo : Option NameObj := none
  repositoryTopics : Option TopicsObj := none
  hasIssuesEnabled : Option Bool := none
  hasWikiEnabled : Option Bool := none
deriving DecidableEq

/-- The normalized dictionary returned by github.extract_repo_info (its
keys are always present, so plain fields). -/
structure GHRepoInfo where
  name : String
  path : String
  description : String
  url : String
  ssh_url : String
  http_url : String
  visibility : String
  archived : Bool
  is_fork : Bool
  is_template : Bool
  stars : ℤ
  forks : ℤ
  open_issues : ℤ
  created_at : String
  updated_at : String
  pushed_at : String
  default_branch : String
  primary_language : String
  languages : List (String × ℚ)
  size : String
  size_bytes : ℤ
  license : String
  topics : List String
  has_issues : Bool
  has_wiki : Bool
  namespaceName : String
deriving DecidableEq

namespace Github

/-- github.extract_repo_info: normalizes one raw gh record.  Notably
`size` renders `diskUsage * 1024` when `diskUsage` is truthy and is the
literal `'0 B'` otherwise, and `size_bytes` is `diskUsage` (in KB,
defaulted to 0) times 1024. -/
def extract_repo_info (repo : GHRaw) : GHRepoInfo :=
  let primary_language :=
    match repo.primaryLanguage with
    | some o => o.name.getD ""
    | none => ""
  let languages := gh_languages repo.languages
  let license_name :=
    match repo.licenseInfo with
    | some o => o.name.getD ""
    | none => ""
  let topics :=
    match repo.repositoryTopics with
    | some t =>
      match t.nodes with
      | some ns => ns.map TopicNode.topicName
      | none => []
    | none => []
  let owner :=
    match repo.owner with
    | some o => o.login.getD ""
    | none => ""
  let open_issues :=
    match repo.issues with
    | some i => i.totalCount.getD 0
    | none => 0
  let default_branch :=
    match repo.defaultBranchRef with
    | some o => o.name.getD "main"
    | none => "main"
  { name := repo.name.getD ""
    path := owner ++ "/" ++ repo.name.getD ""
    description := repo.description.getD ""
    url := repo.url.getD ""
    ssh_url := repo.sshUrl.getD ""
    http_url :=
      match repo.url with
      | some u =>
        if u.isEmpty then ""
        else (u.replace "https://github.com/" "https://github.com/") ++ ".git"
      | none => ""
    visibility := if repo.isPrivate.getD false then "private" else "public"
    archived := repo.isArchived.getD false
    is_fork := repo.isFork.getD false
    is_template := repo.isTemplate.getD false
    stars := repo.stargazerCount.getD 0
    forks := repo.forkCount.getD 0
    open_issues := open_issues
    created_at := format_date repo.createdAt
    updated_at := format_date repo.updatedAt
    pushed_at := format_date repo.pushedAt
    default_branch := default_branch
    primary_language := primary_language
    languages := languages
    size :=
      match repo.diskUsage with
      | some d => if d = 0 then "0 B" else format_size (some (d * 1024))
      | none => "0 B"
    size_bytes := repo.diskUsage.getD 0 * 1024
    license := license_name
    topics := topics
    has_issues := repo.hasIssuesEnabled.getD false
    has_wiki := repo.hasWikiEnabled.getD false
    namespaceName := owner }

end Github

/-- The `namespace` sub-object of a glab record. -/
structure GLNamespace where
  name : Option String := none
  path : Option String := none
  kind : Option String := none
deriving DecidableEq

/-- The `statistics` sub-object (from the embedded statistics or from the
`?statistics=true` project call). -/
structure GLStats where
  repository_size : Option ℤ := none
deriving DecidableEq

/-- One raw record of the glab `repo list --output json` reply, with
exactly the fields gitlab.py reads (`namespace` is a Lean keyword, hence
`namespaceField`). -/
structure GLRaw where
  name : Option String := none
  path_with_namespace : Option String := none
  description : Option String := none
  web_url : Option String := none
  ssh_url_to_repo : Option String := none
  http_url_to_repo : Option String := none
  visibility : Option String := none
  archived : Option Bool := none
  star_count : Option ℤ := none
  forks_count : Option ℤ := none
  created_at : Option String := none
  last_activity_at : Option String := none
  default_branch : Option String := none
  topics : Option (List String) := none
  namespaceField : Option GLNamespace := none
  statistics : Option GLStats := none
  id : Option ℤ := none
deriving DecidableEq

/-- The dictionary returned by gitlab.extract_repo_info.  The base
mapping never sets `languages` or `primary_language`; those keys are only
added by the enrichment block, hence `Option` fields with `none` meaning
"key absent" (`namespace` key renamed as above). -/
structure GLRepoInfo where
  name : String
  path : String
  description : String
  url : String
  ssh_url : String
  http_url : String
  visibility : String
  archived : Bool
  stars : ℤ
  forks : ℤ
  created_at : String
  updated_at : String
  default_branch : String
  topics : List String
  namespaceName : String
  size : String
  size_bytes : ℤ
  languages : Option (List (String × ℚ)) := none
  primary_language : Option String := none
deriving DecidableEq

namespace Gitlab

/-- gitlab.extract_repo_info: normalizes one raw glab record; `size_bytes`
comes from the embedded truthy `statistics` sub-object, else 0, and `size`
is its rendering. -/
def extract_repo_info (repo : GLRaw) : GLRepoInfo :=
  let size_bytes :=
    match repo.statistics with
    | some st => st.repository_size.getD 0
    | none => 0
  { name := repo.name.getD ""
    path := repo.path_with_namespace.getD ""
    description := repo.description.getD ""
    url := repo.web_url.getD ""
    ssh_url := repo.ssh_url_to_repo.getD ""
    http_url := repo.http_url_to_repo.getD ""
    visibility := repo.visibility.getD "unknown"
    archived := repo.archived.getD false
    stars := repo.star_count.getD 0
    forks := repo.forks_count.getD 0
    created_at := format_date repo.created_at
    updated_at := format_date repo.last_activity_at
    default_branch := repo.default_branch.getD "main"
    topics := repo.topics.getD []
    namespaceName := (repo.namespaceField.bind GLNamespace.name).getD ""
    size := format_size (some size_bytes)
    size_bytes := size_bytes
    languages := none
    primary_language := none }

/-- The `if languages:` statement of the enrichment block: a truthy
language map sets the `languages` and `primary_language` keys. -/
def apply_languages (repo_info : GLRepoInfo)
    (languages : Option (List (String × ℚ))) : GLRepoInfo :=
  match languages with
  | some l =>
    if l.isEmpty then repo_info
    else { repo_info with
            languages := some l
            primary_language := some (get_primary_language (some l)) }
  | none => repo_info

/-- The `if project_id:`/`if stats:` statements of the enrichment block:
for a truthy project id whose statistics fetch returns a truthy result,
`size` and `size_bytes` are reset from `repository_size`. -/
def apply_statistics (repo_info : GLRepoInfo) (project_id : Option ℤ)
    (statsFetch : ℤ → Option GLStats) : GLRepoInfo :=
  match project_id with
  | some pid =>
    if pid ≠ 0 then
      match statsFetch pid with
      | some stats =>
        { repo_info with
            size := format_size (some (stats.repository_size.getD 0))
            size_bytes := stats.repository_size.getD 0 }
      | none => repo_info
    else repo_info
  | none => repo_info

/-- The per-repository body shared verbatim by get_user_repos and
get_group_repos: extract, then, when `include_languages` is set, apply the
language enrichment (fetch keyed by `path_with_namespace`) and the
statistics enrichment (fetch keyed by the project id).  `langFetch` and
`statsFetch` stand for the parsed replies of the two extra glab calls. -/
def process_repo (include_languages : Bool)
    (langFetch : String → Option (List (String × ℤ)))
    (statsFetch : ℤ → Option GLStats) (repo : GLRaw) : GLRepoInfo :=
  let repo_info := extract_repo_info repo
  if include_languages then
    apply_statistics
      (apply_languages repo_info
        (get_repo_languages (langFetch (repo.path_with_namespace.getD ""))))
      repo.id statsFetch
  else repo_info

/-- gitlab.get_group_repos as a function of the parsed listing reply
(`none` covers a failed command or unparsable/falsy output). -/
def get_group_repos (listing : Option (List GLRaw)) (include_languages : Bool)
    (langFetch : String → Option (List (String × ℤ)))
    (statsFetch : ℤ → Option GLStats) : List GLRepoInfo :=
  match listing with
  | none => []
  | some repos_data => repos_data.map (process_repo include_languages langFetch statsFetch)

/-- gitlab.get_user_repos as a function of the resolved authenticated
username (`none`: identity lookup failed, return `[]`) and of the
concatenated paginated listing.  Keeps exactly the items whose
`namespace.path` equals the username and whose `namespace.kind` is
`"user"`, then processes each kept item. -/
def get_user_repos (username : Option String) (listing : List GLRaw)
    (include_languages : Bool)
    (langFetch : String → Option (List (String × ℤ)))
    (statsFetch : ℤ → Option GLStats) : List GLRepoInfo :=
  match username with
  | none => []
  | some u =>
    (listing.filter fun repo =>
        ((repo.namespaceField.bind GLNamespace.path).getD "" == u)
          && ((repo.namespaceField.bind GLNamespace.kind).getD "" == "user")).map
      (process_repo include_languages langFetch statsFetch)

end Gitlab

/-- A Python value as it occurs in the repository dictionaries handed to
formatters.format_csv (string, int, bool, list of topic strings, language
percentage mapping). -/
inductive PyVal where
  | vstr : String → PyVal
  | vint : ℤ → PyVal
  | vbool : Bool → PyVal
  | vlist : List String → PyVal
  | vdict : List (String × ℚ) → PyVal
deriving DecidableEq

/-- Python truthiness of these values. -/
def truthy : PyVal → Bool
  | .vstr s => !s.isEmpty
  | .vint n => n != 0
  | .vbool b => b
  | .vlist xs => !xs.isEmpty
  | .vdict m => !m.isEmpty

/-- `d.get(k)`: first binding of a key in an insertion-ordered
dictionary. -/
def dget (d : List (String × PyVal)) (k : String) : Option PyVal :=
  (d.find? fun p => p.1 == k).map fun p => p.2

/-- `d[k] = v` semantics used when merging `**repo` into a dict literal:
an existing key is overwritten in place, a new key is appended. -/
def dinsert (d : List (String × PyVal)) (k : String) (v : PyVal) :
    List (String × PyVal) :=
  if d.any fun p => p.1 == k then
    d.map fun p => if p.1 == k then (k, v) else p
  else d ++ [(k, v)]

/-- formatters.format_csv: the `primary_lang` computation.  Starts from
`repo.get("primary_language", "")`; when that is falsy and
`repo.get("languages")` is a truthy mapping, it is replaced by the
highest-percentage language (`max` over the items, first entry winning
ties). -/
def csvPrimaryLang (repo : List (String × PyVal)) : PyVal :=
  let primary_lang := (dget repo "primary_language").getD (PyVal.vstr "")
  if truthy primary_lang then primary_lang
  else
    match dget repo "languages" with
    | some (PyVal.vdict (x :: xs)) => PyVal.vstr (pyMaxSnd x xs).1
    | _ => primary_lang

/-- formatters.format_csv: `", ".join(repo.get("topics", []))`. -/
def csvTopics (repo : List (String × PyVal)) : PyVal :=
  PyVal.vstr (String.intercalate ", "
    (match dget repo "topics" with
     | some (PyVal.vlist xs) => xs
     | _ => []))

/-- formatters.format_csv: the `row` dict literal
`{"platform": …, "organization": …, "primary_language": primary_lang,
"topics": ", ".join(…), **repo}` — the `**repo` expansion comes last, so
every key present in `repo` overwrites the explicitly computed entry of
the same name. -/
def buildRow (platform org : String) (repo : List (String × PyVal)) :
    List (String × PyVal) :=
  let base := [("platform", PyVal.vstr platform),
               ("organization", PyVal.vstr org),
               ("primary_language", csvPrimaryLang repo),
               ("topics", csvTopics repo)]
  repo.foldl (fun acc p => dinsert acc p.1 p.2) base

def pyQuote : String := String.singleton (Char.ofNat 39)

/-- Python `str` of a list of strings, as `csv.DictWriter` renders a cell
holding a list: bracketed, comma separated, each element quoted. -/
def pyReprList (xs : List String) : String :=
  "[" ++ String.intercalate ", " (xs.map fun s => pyQuote ++ s ++ pyQuote) ++ "]"

/-- Python `str` of one of these values, applied by `csv.DictWriter` to
each cell. -/
def pyStr : PyVal → String
  | .vstr s => s
  | .vint n => toString n
  | .vbool b => if b then "True" else "False"
  | .vlist xs => pyReprList xs
  | .vdict m =>
    "\x7b" ++ String.intercalate ", "
        (m.map fun p => pyQuote ++ p.1 ++ pyQuote ++ ": " ++ render1 p.2)
      ++ "\x7d"

/-- One cell of the emitted CSV row: `csv.DictWriter` with
`extrasaction="ignore"` and default `restval=""` looks the field name up
in the row and stringifies it, rendering a missing field as `""`. -/
def csvCell (row : List (String × PyVal)) (field : String) : String :=
  pyStr ((dget row field).getD (PyVal.vstr ""))

/-! Concrete inputs used by individual claims. -/

/-- A GitHub-shaped raw record with `diskUsage: 10`. -/
def ghSampleRaw : GHRaw := { diskUsage := some 10 }

/-- A repository dictionary whose `primary_language` is present but empty
while `languages` is non-empty (the GitHub adapter always emits both
keys). -/
def sampleLangRepo : List (String × PyVal) :=
  [("name", PyVal.vstr "tool"),
   ("primary_language", PyVal.vstr ""),
   ("languages", PyVal.vdict [("Go", 60), ("Rust", 40)])]

/-- A repository dictionary with a `topics` list, as every adapter-built
record has. -/
def sampleTopicsRepo : List (String × PyVal) :=
  [("name", PyVal.vstr "tool"), ("topics", PyVal.vlist ["go", "cli"])]

/-- A GitLab listing item owned by user `alice` with namespace kind
`"user"`. -/
def glUserRaw : GLRaw :=
  { name := some "blog"
    path_with_namespace := some "alice/blog"
    namespaceField := some { name := some "alice", path := some "alice", kind := some "user" } }

/-- A GitLab listing item in a group namespace whose path happens to equal
the username but whose kind is `"group"`. -/
def glGroupRaw : GLRaw :=
  { name := some "tools"
    path_with_namespace := some "alice/tools"
    namespaceField := some { name := some "alice", path := some "alice", kind := some "group" } }

/-- A GitLab raw record with every field absent. -/
def glSampleRaw : GLRaw := {}

/-!  Theorems. -/

/-- Helper: the size field written by github.extract_repo_info always
renders its own size_bytes field. -/
lemma gh_extract_size_eq (r : GHRaw) :
    (Github.extract_repo_info r).size =
      format_size (some (Github.extract_repo_info r).size_bytes) := by
  cases h : r.diskUsage with
  | none => simp [Github.extract_repo_info, h, format_size]
  | some d =>
    by_cases hd : d = 0
    · subst hd
      simp [Github.extract_repo_info, h, format_size]
    · simp [Github.extract_repo_info, h, hd]

/-- C1: for every GitHub-shaped raw record the mapped record's
`size_bytes` is `diskUsage` (kibibytes, defaulted to 0) times 1024 and
`size` is the human-readable rendering of that byte count; in particular
`diskUsage: 10` maps to `size_bytes = 10240` and `size = "10.0 KB"`. -/
theorem gh_disk_usage_conversion :
    (∀ r : GHRaw,
        (Github.extract_repo_info r).size_bytes = r.diskUsage.getD 0 * 1024 ∧
        (Github.extract_repo_info r).size =
          format_size (some (r.diskUsage.getD 0 * 1024))) ∧
    (Github.extract_repo_info ghSampleRaw).size_bytes = 10240 ∧
    (Github.extract_repo_info ghSampleRaw).size = "10.0 KB" := by
  refine ⟨fun r => ⟨rfl, ?_⟩, by decide, ?_⟩
  · have h := gh_extract_size_eq r
    simpa using h
  · show (Github.extract_repo_info ghSampleRaw).size = "10.0 KB"
    have h : (Github.extract_repo_info ghSampleRaw).size = format_size (some 10240) := rfl
    rw [h]
    norm_num [format_size, sizeLoop, sizeLoopAux, render1, roundHalfEven,
      sizeUnits, Int.floor_eq_iff]
    decide

/-- C2: the delimited-text renderer computes the highest-percentage
language as a fallback for an empty `primary_language`, but the `**repo`
expansion placed after it in the row literal re-instates the record's own
empty value, so the emitted cell is `""` and not `"Go"`; the second
conjunct shows the discarded fallback had indeed been computed as
`"Go"`. -/
theorem csv_primary_language_clobbered :
    csvCell (buildRow "github" "acme" sampleLangRepo) "primary_language" = "" ∧
    csvPrimaryLang sampleLangRepo = PyVal.vstr "Go" := by
  constructor
  · decide
  · simp +decide only [csvPrimaryLang, dget, truthy, pyMaxSnd, List.find?,
      List.foldl, Option.map, Option.getD, sampleLangRepo]

/-- C3 counterexample: an execution failure other than a non-zero exit or
a missing executable (e.g. `PermissionError`) is not caught by
run_command's `try`, so the call raises instead of returning an absent
result. -/
theorem run_command_raises_uncaught :
    run_command RunOutcome.osError true = Except.error () := rfl

/-- C3 (amended): for every run outcome other than an uncaught execution
error, run_command returns without raising: an absent result on non-zero
exit and on a missing executable, the stripped stdout on success with
capture enabled, and an absent result on success with capture disabled. -/
theorem run_command_amended (o : RunOutcome) (c : Bool)
    (h : o ≠ RunOutcome.osError) :
    run_command o c =
      Except.ok (match o with
        | RunOutcome.completed code out _ =>
          if code = 0 ∧ c = true then some (pyStrip out) else none
        | _ => none) := by
  cases o with
  | completed code out err =>
    by_cases hc : code = 0
    · subst hc
      cases c <;> simp [run_command]
    · simp [run_command, hc]
  | fileNotFound => rfl
  | osError => exact absurd rfl h

/-- C3 witness: the amended contract applied to a successful captured
run. -/
theorem run_command_amended_witness :
    run_command (RunOutcome.completed 0 " hi " "") true = Except.ok (some "hi") := by
  have h := run_command_amended (RunOutcome.completed 0 " hi " "") true (by simp)
  exact h.trans rfl

/-- C8: the delimited-text renderer joins `topics` with `", "`, but the
`**repo` expansion placed after it in the row literal re-instates the raw
list, so the emitted cell is the Python rendering of the list and not the
joined string; the third conjunct shows the discarded joined string had
been computed. -/
theorem csv_topics_clobbered :
    csvCell (buildRow "github" "acme" sampleTopicsRepo) "topics" =
        pyReprList ["go", "cli"] ∧
    csvCell (buildRow "github" "acme" sampleTopicsRepo) "topics" ≠
        String.intercalate ", " ["go", "cli"] ∧
    csvTopics sampleTopicsRepo = PyVal.vstr (String.intercalate ", " ["go", "cli"]) := by
  refine ⟨by decide, by decide, by decide⟩

/-- C10: with capture disabled run_command returns an absent result even
on a successful exit, and a present result can only have been produced
with capture enabled. -/
theorem run_command_capture :
    (∀ out err : String,
        run_command (RunOutcome.completed 0 out err) false = Except.ok none) ∧
    (∀ (o : RunOutcome) (c : Bool) (s : String),
        run_command o c = Except.ok (some s) → c = true) := by
  constructor
  · intro out err
    simp [run_command]
  · intro o c s h
    cases c
    · exfalso
      cases o with
      | completed code out err =>
        rcases eq_or_ne code 0 with hc | hc <;> simp [run_command, hc] at h
      | fileNotFound => simp [run_command] at h
      | osError => simp [run_command] at h
    · rfl

/-- Helper: the per-repository processing of the GitLab adapter keeps
`size` equal to the rendering of `size_bytes` through the optional
enrichment (languages never touch the two fields; statistics reset both
together). -/
lemma process_repo_size_eq (il : Bool)
    (lf : String → Option (List (String × ℤ))) (sf : ℤ → Option GLStats)
    (r : GLRaw) :
    (Gitlab.process_repo il lf sf r).size =
      format_size (some (Gitlab.process_repo il lf sf r).size_bytes) := by
  have hlang : ∀ (ri : GLRepoInfo) (L : Option (List (String × ℚ))),
      (Gitlab.apply_languages ri L).size = ri.size ∧
      (Gitlab.apply_languages ri L).size_bytes = ri.size_bytes := by
    intro ri L
    cases L with
    | none => exact ⟨rfl, rfl⟩
    | some l =>
      by_cases he : l.isEmpty <;>
        simp [Gitlab.apply_languages, he]
  have hstat : ∀ (ri : GLRepoInfo) (pid : Option ℤ),
      ri.size = format_size (some ri.size_bytes) →
      (Gitlab.apply_statistics ri pid sf).size =
        format_size (some (Gitlab.apply_statistics ri pid sf).size_bytes) := by
    intro ri pid hri
    cases pid with
    | none => exact hri
    | some p =>
      by_cases hp : p ≠ 0
      · simp only [Gitlab.apply_statistics, if_pos hp]
        cases hs : sf p with
        | none => exact hri
        | some st => rfl
      · simp only [Gitlab.apply_statistics, if_neg hp]
        exact hri
  cases il with
  | false => rfl
  | true =>
    show (Gitlab.apply_statistics (Gitlab.apply_languages (Gitlab.extract_repo_info r)
        (get_repo_languages (lf (r.path_with_namespace.getD "")))) r.id sf).size = _
    apply hstat
    rcases hlang (Gitlab.extract_repo_info r)
        (get_repo_languages (lf (r.path_with_namespace.getD ""))) with ⟨h1, h2⟩
    rw [h1, h2]
    rfl

/-- C9: every record produced by either adapter — the GitLab one through
any listing path, with or without enrichment, and the GitHub one through
its field mapping — satisfies `size = format_size(size_bytes)`. -/
theorem size_consistency :
    (∀ (listing : Option (List GLRaw)) (il : Bool)
        (lf : String → Option (List (String × ℤ))) (sf : ℤ → Option GLStats)
        (x : GLRepoInfo), x ∈ Gitlab.get_group_repos listing il lf sf →
          x.size = format_size (some x.size_bytes)) ∧
    (∀ (u : Option String) (listing : List GLRaw) (il : Bool)
        (lf : String → Option (List (String × ℤ))) (sf : ℤ → Option GLStats)
        (x : GLRepoInfo), x ∈ Gitlab.get_user_repos u listing il lf sf →
          x.size = format_size (some x.size_bytes)) ∧
    (∀ r : GHRaw, (Github.extract_repo_info r).size =
        format_size (some (Github.extract_repo_info r).size_bytes)) := by
  refine ⟨?_, ?_, fun r => gh_extract_size_eq r⟩
  · intro listing il lf sf x hx
    cases listing with
    | none => simp [Gitlab.get_group_repos] at hx
    | some l =>
      simp only [Gitlab.get_group_repos, List.mem_map] at hx
      obtain ⟨r, -, rfl⟩ := hx
      exact process_repo_size_eq il lf sf r
  · intro u listing il lf sf x hx
    cases u with
    | none => simp [Gitlab.get_user_repos] at hx
    | some uu =>
      simp only [Gitlab.get_user_repos, List.mem_map] at hx
      obtain ⟨r, -, rfl⟩ := hx
      exact process_repo_size_eq il lf sf r

/-- C9 witness: the invariant applied to a member of a concrete group
listing. -/
theorem size_consistency_witness :
    (Gitlab.process_repo false (fun _ => none) (fun _ => none) glSampleRaw).size =
      format_size
        (some (Gitlab.process_repo false (fun _ => none) (fun _ => none) glSampleRaw).size_bytes) :=
  size_consistency.1 (some [glSampleRaw]) false (fun _ => none) (fun _ => none) _
    (by decide)

/-- C6: get_user_repos keeps exactly the listing items whose namespace
path equals the resolved username and whose namespace kind is `"user"`;
on a listing holding a user-kind and a group-kind item for the same
username, only the user-kind item is returned. -/
theorem user_repos_filter :
    (∀ (u : String) (listing : List GLRaw)
        (lf : String → Option (List (String × ℤ))) (sf : ℤ → Option GLStats)
        (x : GLRepoInfo),
        x ∈ Gitlab.get_user_repos (some u) listing false lf sf ↔
          ∃ r, r ∈ listing ∧
            (r.namespaceField.bind GLNamespace.path).getD "" = u ∧
            (r.namespaceField.bind GLNamespace.kind).getD "" = "user" ∧
            x = Gitlab.extract_repo_info r) ∧
    Gitlab.get_user_repos (some "alice") [glUserRaw, glGroupRaw] false
        (fun _ => none) (fun _ => none) =
      [Gitlab.extract_repo_info glUserRaw] := by
  constructor
  · intro u listing lf sf x
    simp only [Gitlab.get_user_repos, List.mem_map, List.mem_filter,
      Bool.and_eq_true, beq_iff_eq]
    constructor
    · rintro ⟨r, ⟨hr, hp, hk⟩, rfl⟩
      exact ⟨r, hr, hp, hk, rfl⟩
    · rintro ⟨r, hr, hp, hk, rfl⟩
      exact ⟨r, ⟨hr, hp, hk⟩, rfl⟩
  · decide

/-- C6 witness: a user-kind item of a concrete mixed listing is a member
of the output. -/
theorem user_repos_filter_witness :
    Gitlab.extract_repo_info glUserRaw ∈
      Gitlab.get_user_repos (some "alice") [glUserRaw, glGroupRaw] false
        (fun _ => none) (fun _ => none) :=
  (user_repos_filter.1 "alice" [glUserRaw, glGroupRaw] (fun _ => none)
      (fun _ => none) (Gitlab.extract_repo_info glUserRaw)).mpr
    ⟨glUserRaw, by decide, by decide, by decide, rfl⟩

/-- C7: format_date renders an absent value as `""`; a string without a
time component (no `'T'`) goes through the date-only parse path, falling
back to the unchanged string when that parse fails; a string with `'T'`
whose ISO parse fails is likewise returned unchanged — no exception
escapes. -/
theorem format_date_fallbacks :
    format_date none = "" ∧
    (∀ s : String, hasChar s 'T' = false →
        format_date (some s) = (parseYMD s).elim s strftimeYMD) ∧
    (∀ s : String, hasChar s 'T' = true →
        parseISO (replaceAllChar s 'Z' "+00:00") = none →
        format_date (some s) = s) := by
  refine ⟨rfl, ?_, ?_⟩
  · intro s hT
    by_cases he : s.data.isEmpty
    · have hs : s = "" := by
        cases s with
        | mk data =>
          cases data with
          | nil => rfl
          | cons a t => simp at he
      subst hs
      rfl
    · simp only [format_date, he, Bool.false_eq_true, if_false, hT]
      cases hp : parseYMD s <;> simp [hp]
  · intro s hT hp
    have he : s.data.isEmpty = false := by
      cases hd : s.data with
      | nil =>
        have : hasChar s 'T' = false := by simp [hasChar, hd]
        rw [this] at hT
        exact absurd hT (by simp)
      | cons a t => simp [hd]
    simp only [format_date, he, Bool.false_eq_true, if_false, hT, if_true, hp]

/-- C7 witness: the date-only path applied to a well-formed and to the
unparsable case. -/
theorem format_date_fallbacks_witness :
    format_date (some "2024-03-05") =
        (parseYMD "2024-03-05").elim "2024-03-05" strftimeYMD ∧
    format_date (some "boTgus") = "boTgus" :=
  ⟨format_date_fallbacks.2.1 "2024-03-05" (by decide),
   format_date_fallbacks.2.2 "boTgus" (by decide) (by decide)⟩

/-- Helper: closed form of the format_size division loop.  Starting at
unit index `j` with value `n / 1024 ^ j` and the exact remaining fuel, the
loop stops at unit index `min (log₁₀₂₄ n) 4` with the value divided that
many times. -/
lemma sizeLoopAux_spec (n : ℕ) (hn : 1 ≤ n) :
    ∀ k j : ℕ, k = 4 - j → j ≤ min (Nat.log 1024 n) 4 →
      sizeLoopAux k ((n : ℚ) / 1024 ^ j) j =
        ((n : ℚ) / 1024 ^ min (Nat.log 1024 n) 4, min (Nat.log 1024 n) 4) := by
  intro k
  induction k with
  | zero =>
    intro j hk hj
    have hj4 : j = 4 := by omega
    have hmin : min (Nat.log 1024 n) 4 = 4 := by omega
    subst hj4
    rw [hmin]
    rfl
  | succ k ih =>
    intro j hk hj
    rcases eq_or_lt_of_le hj with hjm | hjm
    · have hj4 : j < 4 := by omega
      have hL : Nat.log 1024 n = j := by omega
      have hlt : (n : ℚ) / 1024 ^ j < 1024 := by
        rw [div_lt_iff₀ (by positivity)]
        have h1 : n < 1024 ^ (Nat.log 1024 n + 1) :=
          Nat.lt_pow_succ_log_self (by norm_num) n
        have h1q : (n : ℚ) < (1024 : ℚ) ^ (Nat.log 1024 n + 1) := by
          exact_mod_cast h1
        calc (n : ℚ) < (1024 : ℚ) ^ (Nat.log 1024 n + 1) := h1q
          _ = 1024 * 1024 ^ j := by rw [hL]; ring
      rw [sizeLoopAux]
      rw [if_neg (fun hc => absurd hc.1 (not_le.mpr hlt))]
      rw [← hjm]
    · have hj4 : j < 4 := by omega
      have hjL : j + 1 ≤ Nat.log 1024 n := by omega
      have hge : (1024 : ℚ) ≤ (n : ℚ) / 1024 ^ j := by
        rw [le_div_iff₀ (by positivity)]
        have h2 : (1024 : ℕ) ^ (j + 1) ≤ n :=
          le_trans (Nat.pow_le_pow_right (by norm_num) hjL)
            (Nat.pow_log_le_self 1024 (by omega))
        have h2q : ((1024 : ℚ)) ^ (j + 1) ≤ (n : ℚ) := by exact_mod_cast h2
        calc (1024 : ℚ) * 1024 ^ j = 1024 ^ (j + 1) := by ring
          _ ≤ (n : ℚ) := h2q
      rw [sizeLoopAux]
      rw [if_pos ⟨hge, hj4⟩]
      have hdiv : (n : ℚ) / 1024 ^ j / 1024 = (n : ℚ) / 1024 ^ (j + 1) := by
        rw [div_div, ← pow_succ]
      rw [hdiv]
      exact ih (j + 1) (by omega) (by omega)

/-- C5: format_size renders `None` and `0` as `"0 B"`, and for a positive
byte count divides by 1024 exactly `min (log₁₀₂₄ n) 4` times — i.e. until
the value is below 1024 or the last unit (TB) is reached — rendering the
result to one decimal next to that unit. -/
theorem format_size_spec :
    format_size none = "0 B" ∧ format_size (some 0) = "0 B" ∧
    ∀ n : ℕ, 0 < n →
      format_size (some (n : ℤ)) =
        render1 ((n : ℚ) / 1024 ^ min (Nat.log 1024 n) 4) ++ " " ++
          sizeUnits.getD (min (Nat.log 1024 n) 4) "B" := by
  refine ⟨rfl, rfl, ?_⟩
  intro n hn
  have hne : ((n : ℤ)) ≠ 0 := by exact_mod_cast hn.ne'
  have hloop := sizeLoopAux_spec n hn 4 0 rfl (by omega)
  have h0 : ((n : ℚ)) / 1024 ^ (0 : ℕ) = (n : ℚ) := by norm_num
  rw [h0] at hloop
  have hcast : (((n : ℤ) : ℚ)) = (n : ℚ) := by push_cast; ring
  simp only [format_size, sizeLoop, Nat.sub_zero, hcast, if_neg hne, hloop]

/-- C5 witness: the closed form applied at 2048 bytes. -/
theorem format_size_spec_witness :
    0 < 2048 ∧
    format_size (some ((2048 : ℕ) : ℤ)) =
      render1 (((2048 : ℕ) : ℚ) / 1024 ^ min (Nat.log 1024 2048) 4) ++ " " ++
        sizeUnits.getD (min (Nat.log 1024 2048) 4) "B" :=
  ⟨by norm_num, format_size_spec.2.2 2048 (by norm_num)⟩

/-- Helper: the integer produced by half-to-even rounding is within one
half of its argument. -/
lemma roundHalfEven_sub_le (q : ℚ) :
    |((roundHalfEven q : ℤ) : ℚ) - q| ≤ 1 / 2 := by
  have h0 : ((⌊q⌋ : ℤ) : ℚ) ≤ q := Int.floor_le q
  have h1 : q < (⌊q⌋ : ℚ) + 1 := Int.lt_floor_add_one q
  unfold roundHalfEven
  split_ifs with hA hB hC
  all_goals rw [abs_le]
  all_goals constructor
  all_goals push_cast
  all_goals linarith

/-- Helper: rounding to one decimal moves a rational by at most 1/20. -/
lemma pyRound1_sub_le (q : ℚ) : |pyRound1 q - q| ≤ 1 / 20 := by
  have h := roundHalfEven_sub_le (q * 10)
  have heq : pyRound1 q - q
      = (((roundHalfEven (q * 10) : ℤ) : ℚ) - q * 10) / 10 := by
    unfold pyRound1
    ring
  rw [heq, abs_div]
  rw [abs_of_pos (by norm_num : (0 : ℚ) < 10)]
  linarith

/-- Helper: rounding every element of a list to one decimal moves the sum
by at most `length / 20`. -/
lemma sum_pyRound1_close (xs : List ℚ) :
    |(xs.map pyRound1).sum - xs.sum| ≤ (xs.length : ℚ) * (1 / 20) := by
  induction xs with
  | nil => simp
  | cons x t ih =>
    have hx := pyRound1_sub_le x
    simp only [List.map_cons, List.sum_cons, List.length_cons]
    have heq : pyRound1 x + (t.map pyRound1).sum - (x + t.sum)
        = (pyRound1 x - x) + ((t.map pyRound1).sum - t.sum) := by ring
    rw [heq]
    calc |(pyRound1 x - x) + ((t.map pyRound1).sum - t.sum)|
        ≤ |pyRound1 x - x| + |(t.map pyRound1).sum - t.sum| := abs_add _ _
      _ ≤ 1 / 20 + (t.length : ℚ) * (1 / 20) := add_le_add hx ih
      _ = (((t.length : ℕ) : ℚ) + 1) * (1 / 20) := by ring
      _ = (((t.length + 1 : ℕ)) : ℚ) * (1 / 20) := by push_cast; ring

/-- Helper: the sum of the exact (unrounded) percentages, for any list of
entries with an integer byte count. -/
lemma sum_map_div {α : Type*} (T : ℚ) (f : α → ℤ) (data : List α) :
    (data.map fun p => ((f p : ℤ) : ℚ) / T * 100).sum
      = (((data.map f).sum : ℤ) : ℚ) / T * 100 := by
  induction data with
  | nil => simp
  | cons x t ih =>
    simp only [List.map_cons, List.sum_cons, ih]
    push_cast
    ring

/-- C4: for a language byte-count mapping with positive total, each
computed percentage is the byte share rounded independently to one
decimal, and the rounded percentages sum to 100 within the accumulated
per-language rounding error of 1/20 each — on the GitLab computation
(get_repo_languages) and on the GitHub one (the language block of
extract_repo_info) alike; a zero total yields `None` on the GitLab path
and the empty mapping on the GitHub path instead of a division by
zero. -/
theorem languages_percentages :
    (∀ data : List (String × ℤ), data ≠ [] → 0 < (data.map Prod.snd).sum →
        get_repo_languages (some data) =
          some (data.map fun p =>
            (p.1, pyRound1 ((p.2 : ℚ) / (((data.map Prod.snd).sum : ℤ) : ℚ) * 100))) ∧
        |(data.map fun p =>
            pyRound1 ((p.2 : ℚ) / (((data.map Prod.snd).sum : ℤ) : ℚ) * 100)).sum
          - 100| ≤ (data.length : ℚ) * (1 / 20)) ∧
    (∀ data : List (String × ℤ), (data.map Prod.snd).sum = 0 →
        get_repo_languages (some data) = none) ∧
    (∀ nodes : List LangNode, 0 < (nodes.map fun l => l.size.getD 0).sum →
        gh_languages (some ⟨some nodes⟩) =
          (nodes.map fun l =>
            (l.name, pyRound1 ((l.size.getD 0 : ℚ) /
              (((nodes.map fun l => l.size.getD 0).sum : ℤ) : ℚ) * 100))) ∧
        |(nodes.map fun l =>
            pyRound1 ((l.size.getD 0 : ℚ) /
              (((nodes.map fun l => l.size.getD 0).sum : ℤ) : ℚ) * 100)).sum
          - 100| ≤ (nodes.length : ℚ) * (1 / 20)) ∧
    (∀ nodes : List LangNode, (nodes.map fun l => l.size.getD 0).sum = 0 →
        gh_languages (some ⟨some nodes⟩) = []) := by
  refine ⟨?_, ?_, ?_, ?_⟩
  · intro data hne hpos
    have hemp : data.isEmpty = false := by
      cases data with
      | nil => exact absurd rfl hne
      | cons a t => rfl
    have hTne : (((data.map Prod.snd).sum : ℤ) : ℚ) ≠ 0 := by
      exact_mod_cast hpos.ne'
    constructor
    · simp only [get_repo_languages, hemp, Bool.false_eq_true, if_false,
        if_neg hpos.ne']
    · have hmm : ((data.map fun p =>
            (p.2 : ℚ) / (((data.map Prod.snd).sum : ℤ) : ℚ) * 100).map pyRound1)
          = data.map fun p =>
            pyRound1 ((p.2 : ℚ) / (((data.map Prod.snd).sum : ℤ) : ℚ) * 100) := by
        rw [List.map_map]
        rfl
      rw [← hmm]
      have hclose := sum_pyRound1_close
        (data.map fun p => (p.2 : ℚ) / (((data.map Prod.snd).sum : ℤ) : ℚ) * 100)
      rw [sum_map_div (((data.map Prod.snd).sum : ℤ) : ℚ) Prod.snd data] at hclose
      rw [div_self hTne, one_mul] at hclose
      simpa [List.length_map] using hclose
  · intro data h
    rcases eq_or_ne data [] with rfl | hne
    · rfl
    · have hemp : data.isEmpty = false := by
        cases data with
        | nil => exact absurd rfl hne
        | cons a t => rfl
      simp [get_repo_languages, hemp, h]
  · intro nodes hpos
    have hTne : (((nodes.map fun l => l.size.getD 0).sum : ℤ) : ℚ) ≠ 0 := by
      exact_mod_cast hpos.ne'
    constructor
    · simp only [gh_languages]
      rw [if_pos hpos]
    · have hmm : ((nodes.map fun l =>
            (l.size.getD 0 : ℚ) /
              (((nodes.map fun l => l.size.getD 0).sum : ℤ) : ℚ) * 100).map pyRound1)
          = nodes.map fun l =>
            pyRound1 ((l.size.getD 0 : ℚ) /
              (((nodes.map fun l => l.size.getD 0).sum : ℤ) : ℚ) * 100) := by
        rw [List.map_map]
        rfl
      rw [← hmm]
      have hclose := sum_pyRound1_close
        (nodes.map fun l => (l.size.getD 0 : ℚ) /
          (((nodes.map fun l => l.size.getD 0).sum : ℤ) : ℚ) * 100)
      rw [sum_map_div (((nodes.map fun l => l.size.getD 0).sum : ℤ) : ℚ)
        (fun l => l.size.getD 0) nodes] at hclose
      rw [div_self hTne, one_mul] at hclose
      simpa [List.length_map] using hclose
  · intro nodes h
    simp only [gh_languages, h]
    norm_num

/-- C4 witness: all four conjuncts applied at concrete mappings, the
positive-total ones on both the GitLab and the GitHub computation. -/
theorem languages_percentages_witness :
    get_repo_languages (some [("Go", 3), ("Rust", 1)]) =
        some [("Go", (75 : ℚ)), ("Rust", (25 : ℚ))] ∧
    gh_languages (some ⟨some [⟨"Go", some 3⟩, ⟨"Rust", some 1⟩]⟩) =
        [("Go", (75 : ℚ)), ("Rust", (25 : ℚ))] ∧
    get_repo_languages (some [("Go", 0)]) = none ∧
    gh_languages (some ⟨some [⟨"Go", some 0⟩]⟩) = [] := by
  refine ⟨?_, ?_, languages_percentages.2.1 [("Go", 0)] (by decide),
    languages_percentages.2.2.2 [⟨"Go", some 0⟩] (by decide)⟩
  · have h := (languages_percentages.1 [("Go", 3), ("Rust", 1)] (by decide)
      (by decide)).1
    rw [h]
    norm_num [pyRound1, roundHalfEven, Int.floor_eq_iff]
  · have h := (languages_percentages.2.2.1 [⟨"Go", some 3⟩, ⟨"Rust", some 1⟩]
      (by decide)).1
    rw [h]
    norm_num [pyRound1, roundHalfEven, Int.floor_eq_iff]

/-- C10 witness: both conjuncts applied at a concrete successful run. -/
theorem run_command_capture_witness :
    run_command (RunOutcome.completed 0 "out" "e") false = Except.ok none ∧
    true = true :=
  ⟨run_command_capture.1 "out" "e",
   run_command_capture.2 (RunOutcome.completed 0 "out" "e") true "out" rfl⟩

end RepoSummary
